import Mathlib

/-!
Verification of the loopy code-generation backend (src/tsfc/loopy.py).

The Python source is shallowly embedded: pymbolic expressions become the
inductive `PyExpr`, numpy float values become `PyFloat` (exact rationals plus
a NaN marker), numpy dtypes become the enumeration `DType`, and the functions
of loopy.py become Lean functions of the same names.  Fallible Python code
(assertions, KeyError, NotImplementedError) is embedded with `Except`.
-/

namespace TSFC

/-- Numpy dtypes that occur in loopy.py: float32/float64 scalars, the complex
scalar type, and the single-byte integer used for logical nodes. -/
inductive DType
  | float32
  | float64
  | complex128
  | int8
deriving DecidableEq

/-- A Python float: either NaN or an exact value (modelled as a rational). -/
inductive PyFloat
  | nan
  | val (q : ℚ)
deriving DecidableEq

/-- Pymbolic expressions, as built by loopy.py: `p.Variable`, `p.Subscript`,
`p.Sum`/`p.Product` (n-ary), `p.Quotient`, `p.Call`, plus scalar literals
(float and int). -/
inductive PyExpr
  | var (name : String)
  | lit (q : ℚ)
  | intLit (z : ℤ)
  | sum (terms : List PyExpr)
  | product (terms : List PyExpr)
  | quotient (num den : PyExpr)
  | call (func : PyExpr) (args : List PyExpr)
  | subscript (aggregate : PyExpr) (index : List PyExpr)

/-- Round-half-to-even of a rational to an integer (semantics of numpy
rounding of an exact value). -/
def roundHalfEven (q : ℚ) : ℤ :=
  let f := ⌊q⌋
  let frac := q - f
  if frac < 1 / 2 then f
  else if 1 / 2 < frac then f + 1
  else if f % 2 = 0 then f else f + 1

/-- `numpy.round(v, 1)`: round to one decimal place, half to even. -/
def npRound1 (v : ℚ) : ℚ := (roundHalfEven (10 * v) : ℚ) / 10

/-- Embedding of `_expression_scalar` (loopy.py lines 574-583): NaN becomes
the variable `NAN`; otherwise `r = numpy.round(v, 1)` and the value is
snapped to `r` when `r` is truthy (nonzero) and `|v - r| < epsilon`
(`epsilon` is the declared resolution, `ctx.epsilon`); otherwise the value
is emitted verbatim. -/
def _expression_scalar (v : PyFloat) (epsilon : ℚ) : PyExpr :=
  match v with
  | .nan => .var "NAN"
  | .val v =>
      let r := npRound1 v
      if r ≠ 0 ∧ |v - r| < epsilon then .lit r else .lit v

/-- Sequencing of a fallible map over a list, the semantics of both Python
list comprehensions over raising code and `mapM` in `Except`: stops at the
first raised error. -/
def mapE {α β : Type} (g : α → Except String β) : List α → Except String (List β)
  | [] => .ok []
  | x :: xs =>
      match g x with
      | .ok y =>
          match mapE g xs with
          | .ok ys => .ok (y :: ys)
          | .error e => .error e
      | .error e => .error e

mutual

/-- Evaluation of the arithmetic fragment of pymbolic expressions under an
environment assigning rational values to variable names.  Constructors that
do not denote a scalar arithmetic value (calls, subscripts) evaluate to a
junk value 0; the theorems only apply it to the arithmetic fragment. -/
def evalPy (env : String → ℚ) : PyExpr → ℚ
  | .var n => env n
  | .lit q => q
  | .intLit z => (z : ℚ)
  | .sum ts => (evalPyList env ts).sum
  | .product ts => (evalPyList env ts).prod
  | .quotient a b => evalPy env a / evalPy env b
  | .call _ _ => 0
  | .subscript _ _ => 0

def evalPyList (env : String → ℚ) : List PyExpr → List ℚ
  | [] => []
  | x :: xs => evalPy env x :: evalPyList env xs

end

/-- A component of a gem multiindex as it may appear in `dim2idxs` of a
`FlexiblyIndexed` node: a fixed `gem.Index` (identified by its id) or a
`gem.VariableIndex`. -/
inductive GemIndexRef
  | fixed (id : ℕ)
  | variableIdx (id : ℕ)
deriving DecidableEq

/-- Whether the reference is a fixed `gem.Index` (the `isinstance` test of
the assertion in `_expression_flexiblyindexed`). -/
def GemIndexRef.isFixed : GemIndexRef → Bool
  | .fixed _ => true
  | .variableIdx _ => false

/-- One `(index, stride)` pair of a dimension: resolves the index through the
active-index mapping (`ctx.active_indices[index]`, a `KeyError` when the
index is not bound) and builds `p.Product((active_indices[index], stride))`. -/
def lowerFlexTerm (active : ℕ → Option String) (pr : GemIndexRef × ℤ) :
    Except String PyExpr :=
  match pr.1 with
  | .fixed id =>
      match active id with
      | some nm => .ok (.product [.var nm, .intLit pr.2])
      | none => .error "KeyError: index not in active_indices"
  | .variableIdx _ => .error "AssertionError"

/-- One `(off, idxs)` entry of `dim2idxs`: first the assertion that every
index of the dimension is a fixed `gem.Index`, then the affine expression
`p.Sum((off, active_indices[i1]*s1, ...))`. -/
def lowerFlexDim (active : ℕ → Option String) (od : ℤ × List (GemIndexRef × ℤ)) :
    Except String PyExpr :=
  if od.2.all fun pr => pr.1.isFixed then
    match mapE (lowerFlexTerm active) od.2 with
    | .ok terms => .ok (.sum (.intLit od.1 :: terms))
    | .error e => .error e
  else .error "AssertionError: index must be a fixed gem Index"

/-- Embedding of `_expression_flexiblyindexed` (loopy.py lines 601-615):
`var` is the lowered child, `dim2idxs` the list of `(offset, (index, stride)
pairs)` per output dimension, `active` the active-index mapping keyed by
index identity. -/
def _expression_flexiblyindexed (var : PyExpr)
    (dim2idxs : List (ℤ × List (GemIndexRef × ℤ)))
    (active : ℕ → Option String) : Except String PyExpr :=
  match mapE (lowerFlexDim active) dim2idxs with
  | .ok rank => .ok (.subscript var rank)
  | .error e => .error e

/-- The pymbolic term `lowerFlexTerm` produces on a bound fixed index
(stated separately so the success shape of the lowering can be named). -/
def flexTermExpr (active : ℕ → Option String) (pr : GemIndexRef × ℤ) : PyExpr :=
  match pr.1 with
  | .fixed id => .product [.var ((active id).getD ""), .intLit pr.2]
  | .variableIdx _ => .product []

/-- The pymbolic affine expression `lowerFlexDim` produces on a dimension
whose indices are all bound fixed indices. -/
def flexDimExpr (active : ℕ → Option String) (od : ℤ × List (GemIndexRef × ℤ)) :
    PyExpr :=
  .sum (.intLit od.1 :: od.2.map (flexTermExpr active))

/-- Whether an index reference is a fixed index bound in the active-index
mapping. -/
def idxBound (active : ℕ → Option String) : GemIndexRef → Bool
  | .fixed id => (active id).isSome
  | .variableIdx _ => false

/-- The value of a referenced index: the environment value of the loop
variable it is bound to in the active-index mapping. -/
def idxValue (active : ℕ → Option String) (env : String → ℚ) : GemIndexRef → ℚ
  | .fixed id =>
      match active id with
      | some nm => env nm
      | none => 0
  | .variableIdx _ => 0

/-- The affine formula `offset + Σ(index_value * stride)` of one output
dimension of a `FlexiblyIndexed` subscript. -/
def affineDimValue (active : ℕ → Option String) (env : String → ℚ)
    (od : ℤ × List (GemIndexRef × ℤ)) : ℚ :=
  (od.1 : ℚ) + (od.2.map fun pr => idxValue active env pr.1 * (pr.2 : ℚ)).sum

/-- Gem expression nodes reaching `_expression` and `_assign_dtype`
(a representative cross-section of the gem node kinds dispatched on in
loopy.py; `literal` carries the dtype of its backing numpy array). -/
inductive GemExpr
  | literal (value : ℚ) (dtype : DType)
  | zero
  | identityG
  | delta
  | gemvar (name : String)
  | sumG (a b : GemExpr)
  | productG (a b : GemExpr)
  | divisionG (a b : GemExpr)
  | power (a b : GemExpr)
  | mathfunction (name : String) (children : List GemExpr)
  | minvalue (a b : GemExpr)
  | maxvalue (a b : GemExpr)
  | comparison (op : String) (a b : GemExpr)
  | logicalnot (a : GemExpr)
  | logicaland (a b : GemExpr)
  | logicalor (a b : GemExpr)
  | conditional (c t e : GemExpr)
  | indexsum (body : GemExpr)

/-- Structural test used by `nu == gem.one`: `gem.one` is `Literal(1.0)` and
gem `Literal` equality compares the backing array by value. -/
def isGemOne : GemExpr → Bool
  | .literal v _ => v == 1
  | _ => false

/-- Structural test used by `nu == gem.Zero()`: gem equality first requires
equal node types, so only a scalar `Zero` node passes. -/
def isGemZero : GemExpr → Bool
  | .zero => true
  | _ => false

/-- Modelled from the spec: `is_complex` is imported from `tsfc.parameters`,
which is code of this repository not present under src/.  Per the spec it
tests whether the declared scalar type is a complex type. -/
def is_complex (t : DType) : Bool :=
  match t with
  | .complex128 => true
  | _ => false

/-- Python `s.startswith(p)`, computed on the underlying character lists. -/
def pyStartsWith (s p : String) : Bool := p.data.isPrefixOf s.data

/-- Python `s[-1:]`: the string consisting of the last character (empty when
`s` is empty). -/
def pySliceLast (s : String) : String := ⟨s.data.drop (s.data.length - 1)⟩

/-- Embedding of `_expression_mathfunction` (loopy.py lines 501-535).  The
recursive calls `expression(c, ctx)` are abstracted by the argument `low`
(lowering of child nodes).  For `cyl_bessel_*` names: complex scalar types
raise `NotImplementedError` before anything else; modified Bessel functions
(`i`, `k`) route to boost-qualified names; ordinary ones route through the
last character of the name to order-0/order-1 specialised names when the
order operand is structurally `gem.Zero()` or `gem.one`, else to a generic
order-n call.  Otherwise `ln` is renamed to `log` and a plain named call is
emitted. -/
def _expression_mathfunction (low : GemExpr → Except String PyExpr)
    (fname : String) (children : List GemExpr) (scalarType : DType) :
    Except String PyExpr :=
  if pyStartsWith fname "cyl_bessel_" then
    if is_complex scalarType then
      .error "NotImplementedError: Bessel functions for complex numbers: missing implementation"
    else
      match children with
      | [nu, arg] =>
          match low nu, low arg with
          | .ok nuLow, .ok argLow =>
              if fname = "cyl_bessel_i" ∨ fname = "cyl_bessel_k" then
                .ok (.call (.var ("boost::math::" ++ fname)) [nuLow, argLow])
              else
                let name := pySliceLast fname
                if isGemZero nu then .ok (.call (.var (name ++ "0")) [argLow])
                else if isGemOne nu then .ok (.call (.var (name ++ "1")) [argLow])
                else .ok (.call (.var (name ++ "n")) [nuLow, argLow])
          | .error e, _ => .error e
          | _, .error e => .error e
      | _ => .error "ValueError: cannot unpack children"
  else
    let name := if fname = "ln" then "log" else fname
    match mapE low children with
    | .ok args => .ok (.call (.var name) args)
    | .error e => .error e

/-- The two type parameters of dtype assignment: the declared scalar type and
its associated real type (`numpy.finfo(scalar_type).dtype`). -/
structure DtypeCtx where
  scalar_type : DType
  real_type : DType

mutual

/-- Embedding of the `_assign_dtype` single-dispatch family (loopy.py lines
29-84): terminals get the scalar type; `Zero`, `Identity`, `Delta` the real
type; a `Literal` the dtype of its array; `Power` the scalar type;
`MathFunction` the real type for abs/real/imag, the scalar type for sqrt,
else the union over children; `MinValue`/`MaxValue` the real type;
`Conditional` the union over `children[1:]` (branches only); comparisons and
logical nodes int8; all other compound nodes the union over children. -/
def _assign_dtype (cx : DtypeCtx) : GemExpr → Finset DType
  | .gemvar _ => {cx.scalar_type}
  | .zero => {cx.real_type}
  | .identityG => {cx.real_type}
  | .delta => {cx.real_type}
  | .literal _ d => {d}
  | .power _ _ => {cx.scalar_type}
  | .mathfunction name cs =>
      if name = "abs" ∨ name = "real" ∨ name = "imag" then {cx.real_type}
      else if name = "sqrt" then {cx.scalar_type}
      else _assign_dtype_list cx cs
  | .minvalue _ _ => {cx.real_type}
  | .maxvalue _ _ => {cx.real_type}
  | .conditional _ t e => _assign_dtype cx t ∪ _assign_dtype cx e
  | .comparison _ _ _ => {DType.int8}
  | .logicalnot _ => {DType.int8}
  | .logicaland _ _ => {DType.int8}
  | .logicalor _ _ => {DType.int8}
  | .sumG a b => _assign_dtype cx a ∪ _assign_dtype cx b
  | .productG a b => _assign_dtype cx a ∪ _assign_dtype cx b
  | .divisionG a b => _assign_dtype cx a ∪ _assign_dtype cx b
  | .indexsum body => _assign_dtype cx body

/-- `set.union(*map(self, expression.children))` over a child list. -/
def _assign_dtype_list (cx : DtypeCtx) : List GemExpr → Finset DType
  | [] => ∅
  | c :: cs => _assign_dtype cx c ∪ _assign_dtype_list cx cs

end

/-- A name produced by `pytools.UniqueNameGenerator`: the seed itself
(`attempt = none`) or the seed with a numeric suffix (`attempt = some k`
renders as `seed_k`); the rendering is injective on this data. -/
structure GenName where
  seed : String
  attempt : Option ℕ
deriving DecidableEq

/-- The candidate sequence tried by `UniqueNameGenerator` for a seed:
the plain seed first, then `seed_0`, `seed_1`, ... -/
def candidate (s : String) : ℕ → GenName
  | 0 => ⟨s, none⟩
  | k + 1 => ⟨s, some k⟩

/-- First candidate starting from index `start` that is not already used,
with enough fuel to scan past all used names. -/
def firstFreeFrom (used : Finset GenName) (s : String) : ℕ → ℕ → GenName
  | start, 0 => candidate s start
  | start, fuel + 1 =>
      if candidate s start ∈ used then firstFreeFrom used s (start + 1) fuel
      else candidate s start

/-- `UniqueNameGenerator.__call__(seed)`: the first unused candidate.  Fuel
`used.card + 1` suffices because the candidates are pairwise distinct. -/
def freshName (used : Finset GenName) (s : String) : GenName :=
  firstFreeFrom used s 0 (used.card + 1)

/-- Modelled from the spec: gem node identity.  The gem package of this
repository (gem/node.py, where node equality and hashing live) is not under
src/; the spec states that the node-to-name mapping is "memoized by node
identity — two structurally identical but distinct node instances get
distinct storage".  A node is therefore modelled as an identity paired with
the structural data `_gem_to_pym_var` reads (its `name` attribute, the seed
for name generation). -/
structure GemNode where
  nodeId : ℕ
  seedName : String
deriving DecidableEq

/-- The naming state of `LoopyContext` used by `_gem_to_pym_var`: the
`gem_to_pymbolic` memo table (keyed by node identity) and the set of names
the shared `UniqueNameGenerator` has handed out. -/
structure NamingCtx where
  gem_to_pymbolic : ℕ → Option GenName
  usedNames : Finset GenName

/-- Embedding of `LoopyContext._gem_to_pym_var` (loopy.py lines 162-169):
return the memoized pymbolic variable for the node, or on a `KeyError`
allocate a fresh name from the node seed, record it, and return it. -/
def _gem_to_pym_var (ctx : NamingCtx) (node : GemNode) : GenName × NamingCtx :=
  match ctx.gem_to_pymbolic node.nodeId with
  | some pym => (pym, ctx)
  | none =>
      let nm := freshName ctx.usedNames node.seedName
      (nm,
       { gem_to_pymbolic := fun i => if i = node.nodeId then some nm else ctx.gem_to_pymbolic i,
         usedNames := insert nm ctx.usedNames })

/-- Invariant of the naming state: every memoized name was handed out by the
name generator, and no two node identities share a memoized name. -/
def NamingCtx.WF (ctx : NamingCtx) : Prop :=
  (∀ i nm, ctx.gem_to_pymbolic i = some nm → nm ∈ ctx.usedNames) ∧
  (∀ i j nm, ctx.gem_to_pymbolic i = some nm → ctx.gem_to_pymbolic j = some nm → i = j)

/-- The slice of `LoopyContext` that the `active_indices` context manager
mutates: the active-index mapping (gem index identity to loop-variable
name). -/
structure LCtx where
  active : ℕ → Option String

/-- `ctx.active_indices.update(mapping)`: entries of `mapping` override. -/
def pushActive (mapping : List (ℕ × String)) (f : ℕ → Option String) :
    ℕ → Option String :=
  fun k =>
    match mapping.lookup k with
    | some v => some v
    | none => f k

/-- `for key in mapping: ctx.active_indices.pop(key)`: every key of
`mapping` is removed. -/
def popActive (mapping : List (ℕ × String)) (f : ℕ → Option String) :
    ℕ → Option String :=
  fun k => if k ∈ mapping.map Prod.fst then none else f k

/-- Embedding of the `active_indices` context manager (loopy.py lines
176-185).  It is a `@contextmanager` generator with no try/finally: the
update runs, the body runs at the yield, and the pop loop after the yield
runs only when the body returns normally — an exception thrown into the
generator at the yield propagates and the pop loop is never reached.  The
body is embedded as a state transformer that returns the mutated context
together with a normal result or a raised error. -/
def active_indices {α : Type} (mapping : List (ℕ × String))
    (body : LCtx → LCtx × Except String α) (ctx : LCtx) :
    LCtx × Except String α :=
  let ctx1 : LCtx := ⟨pushActive mapping ctx.active⟩
  match body ctx1 with
  | (ctx2, .ok a) => (⟨popActive mapping ctx2.active⟩, .ok a)
  | (ctx2, .error e) => (ctx2, .error e)

/-- A kernel argument or temporary declaration of the auxiliary kernel. -/
structure KernelArg where
  name : String
  dtype : DType
  shape : List ℕ
  isTemporary : Bool
deriving DecidableEq

/-- The data of the kernel built by `loopy_matfree_solve`: its name, its
argument/temporary declarations, the inclusive bounds of the iteration
loop index `i_6` (the ISL domain says `0 <= i_6 <= 3*n`), the initial-guess
value assigned by `x[i_0] = 1.0`, the convergence threshold of the
`CInstruction` stop criterion, and the value fixed for the parameter `n`. -/
structure MatfreeKernel where
  name : String
  args : List KernelArg
  i6lo : ℕ
  i6hi : ℕ
  xInitValue : ℚ
  stopThreshold : ℚ
  fixedN : ℕ
deriving DecidableEq

/-- Embedding of `loopy_matfree_solve` (loopy.py lines 392-454).  The Python
function also receives `lhs`, `reads` and `ctx` but reads none of them; only
`shape` is used (`shape[0]` is the system size `n`).  The unused declared
scalar type is kept as a parameter to state that the kernel is independent
of it; every declaration is hard-coded `np.float64`. -/
def loopy_matfree_solve (scalarType : DType) (shape : List ℕ) : MatfreeKernel :=
  let n := shape.headD 0
  { name := "matfree_cg_kernel"
    args := [⟨"A", .float64, [n, n], false⟩,
             ⟨"b", .float64, shape, false⟩,
             ⟨"x", .float64, shape, true⟩,
             ⟨"output", .float64, shape, false⟩,
             ⟨"A_on_x", .float64, shape, true⟩,
             ⟨"A_on_p", .float64, shape, true⟩,
             ⟨"p", .float64, shape, true⟩]
    i6lo := 0
    i6hi := 3 * n
    xInitValue := 1
    stopThreshold := 1 / 1000000
    fixedN := n }

/-- Number of times the loop body over `i_6` can run when the break is never
taken: the inclusive domain `i6lo <= i_6 <= i6hi` has `i6hi - i6lo + 1`
points. -/
def MatfreeKernel.i6TripCount (k : MatfreeKernel) : ℕ := k.i6hi - k.i6lo + 1

/-- `rk_norm = rk_norm + r[i]*r[i]` style reductions: the dot product. -/
def dotQ (a b : List ℚ) : ℚ := (List.zipWith (· * ·) a b).sum

/-- The external `action_A` primitive applied to a dense matrix: `A · v`. -/
def matvec (A : List (List ℚ)) (v : List ℚ) : List ℚ :=
  A.map fun row => dotQ row v

/-- The live variables of the conjugate-gradient loop of the auxiliary
kernel. -/
structure CGState where
  x : List ℚ
  r : List ℚ
  p : List ℚ
  rk_norm : ℚ
deriving DecidableEq

/-- The straight-line prefix of the auxiliary kernel (instruction ids `x0`,
`Aonx`, `residual0`, `projector0`, `rk_norm0`/`rk_norm1`): `x := 1`
(all-ones), `A_on_x := A·x`, `r := A_on_x − b`, `p := −r`,
`rk_norm := Σ r_i²`. -/
def cgInit (A : List (List ℚ)) (b : List ℚ) (n : ℕ) : CGState :=
  let x := List.replicate n (1 : ℚ)
  let A_on_x := matvec A x
  let r := List.zipWith (· - ·) A_on_x b
  let p := r.map fun t => -t
  { x := x, r := r, p := p, rk_norm := dotQ r r }

/-- The loop over `i_6` of the auxiliary kernel (instruction ids `Aonp`,
`ponAp0`/`ponAp`, `alpha`, `xk`, `rk`, `rkp1_norm0`/`rkp1_normk`, the
`cond` break, `beta`, `rk_normk`, `projectork`): each iteration computes
`A_on_p := A·p`, `p_on_Ap := Σ p_i·A_on_p_i`, `alpha := rk_norm/p_on_Ap`,
`x += alpha·p`, `r += alpha·A_on_p`, `rkp1_norm := Σ r_i²`, breaks when
`rkp1_norm < 0.000001`, else `beta := rkp1_norm/rk_norm`,
`rk_norm := rkp1_norm`, `p := beta·p − r`.  Returns the final state and the
number of iterations of the body that ran. -/
def cgLoop (A : List (List ℚ)) : ℕ → CGState → CGState × ℕ
  | 0, s => (s, 0)
  | fuel + 1, s =>
      let A_on_p := matvec A s.p
      let p_on_Ap := dotQ s.p A_on_p
      let alpha := s.rk_norm / p_on_Ap
      let x := List.zipWith (fun xi pi => xi + alpha * pi) s.x s.p
      let r := List.zipWith (fun ri ai => ri + alpha * ai) s.r A_on_p
      let rkp1_norm := dotQ r r
      if rkp1_norm < 1 / 1000000 then
        ({ s with x := x, r := r }, 1)
      else
        let beta := rkp1_norm / s.rk_norm
        let p := List.zipWith (fun pi ri => beta * pi - ri) s.p r
        let next := cgLoop A fuel { x := x, r := r, p := p, rk_norm := rkp1_norm }
        (next.1, next.2 + 1)

/-- The residual vector computed inside one iteration of the loop body
(instruction ids `Aonp` through `rk`): `r + (rk_norm / (p·A·p)) · A·p`.
Its squared norm is the `rkp1_norm` the stop criterion tests. -/
def cgStepResidual (A : List (List ℚ)) (s : CGState) : List ℚ :=
  List.zipWith (fun ri ai => ri + s.rk_norm / dotQ s.p (matvec A s.p) * ai)
    s.r (matvec A s.p)

/-- A full run of the auxiliary kernel on a system of size `n`: the loop
over `i_6` ranges over the `i6TripCount` points of its domain; the result is
`output := x` together with the number of loop iterations executed. -/
def matfree_cg_run (A : List (List ℚ)) (b : List ℚ) (n : ℕ) : List ℚ × ℕ :=
  let res := cgLoop A (MatfreeKernel.i6TripCount (loopy_matfree_solve .float64 [n]))
    (cgInit A b n)
  (res.1.x, res.2)

/-- The loopy instructions that `statement` emits, reduced to what the
claims inspect: assignments and call instructions with their target symbol
and argument count. -/
inductive Instr
  | assign
  | callInstr (target : String) (argCount : ℕ)
deriving DecidableEq

/-- The module-global state of loopy.py: the pending auxiliary kernel
`matfree_solve_knl`, plus a count of how many times `loopy_matfree_solve`
assigned it (one registration per call). -/
structure GlobalState where
  matfree_solve_knl : Option MatfreeKernel
  registrations : ℕ
deriving DecidableEq

/-- The Impero statement forms relevant to `Solve` lowering: blocks, loops,
`Evaluate` of a `Solve(A, b, matfree)` node with a given result shape, and
any other statement (which lowers to assignment instructions). -/
inductive ImperoStmt
  | block (children : List ImperoStmt)
  | forLoop (body : ImperoStmt)
  | evaluateSolve (matfree : Bool) (shape : List ℕ)
  | evaluateOther

mutual

/-- Embedding of `statement`/`statement_evaluate` for the `Solve` cases
(loopy.py lines 362-389), threading the module-global state explicitly.
A matrix-free `Solve` first calls `loopy_matfree_solve` (which assigns the
module-global `matfree_solve_knl`) and then emits a `CallInstruction` whose
target is `matfree_solve_knl.name`; a direct `Solve` emits a
`CallInstruction` on the generic symbol `solve`.  Both calls pass one
sub-array read per child (`A` and `b`). -/
def statement (sc : DType) (t : ImperoStmt) (st : GlobalState) :
    List Instr × GlobalState :=
  match t with
  | .block cs => statementList sc cs st
  | .forLoop body => statement sc body st
  | .evaluateSolve matfree shape =>
      if matfree then
        let knl := loopy_matfree_solve sc shape
        ([.callInstr knl.name 2],
         { matfree_solve_knl := some knl, registrations := st.registrations + 1 })
      else
        ([.callInstr "solve" 2], st)
  | .evaluateOther => ([.assign], st)

/-- Concatenation of the instruction lists of a block (`statement_block`). -/
def statementList (sc : DType) (ts : List ImperoStmt) (st : GlobalState) :
    List Instr × GlobalState :=
  match ts with
  | [] => ([], st)
  | c :: cs =>
      let first := statement sc c st
      let rest := statementList sc cs first.2
      (first.1 ++ rest.1, rest.2)

end

mutual

/-- The number of matrix-free `Solve` nodes lowered in a statement tree. -/
def matfreeCount : ImperoStmt → ℕ
  | .block cs => matfreeCountList cs
  | .forLoop body => matfreeCount body
  | .evaluateSolve matfree _ => if matfree then 1 else 0
  | .evaluateOther => 0

def matfreeCountList : List ImperoStmt → ℕ
  | [] => 0
  | c :: cs => matfreeCount c + matfreeCountList cs

end

mutual

/-- The number of direct (non-matrix-free) `Solve` nodes in a tree. -/
def plainSolveCount : ImperoStmt → ℕ
  | .block cs => plainSolveCountList cs
  | .forLoop body => plainSolveCount body
  | .evaluateSolve matfree _ => if matfree then 0 else 1
  | .evaluateOther => 0

def plainSolveCountList : List ImperoStmt → ℕ
  | [] => 0
  | c :: cs => plainSolveCount c + plainSolveCountList cs

end

mutual

/-- The instruction list `statement` emits, computed without the state: the
target of a matrix-free solve call is the name of the kernel built for its
shape, a direct solve targets `solve`. -/
def expectedInstrs (sc : DType) : ImperoStmt → List Instr
  | .block cs => expectedInstrsList sc cs
  | .forLoop body => expectedInstrs sc body
  | .evaluateSolve matfree shape =>
      if matfree then [.callInstr (loopy_matfree_solve sc shape).name 2]
      else [.callInstr "solve" 2]
  | .evaluateOther => [.assign]

def expectedInstrsList (sc : DType) : List ImperoStmt → List Instr
  | [] => []
  | c :: cs => expectedInstrs sc c ++ expectedInstrsList sc cs

end

/-- The program-transformation steps `generate` applies when an auxiliary
kernel is pending: `register_callable_kernel`,
`_match_caller_callee_argument_dimension_`, `inline_callable_kernel`, all
applied at the name of the pending kernel. -/
inductive ProgStep
  | registerCallableKernel (calleeName : String)
  | matchCallerCalleeArgDim (calleeName : String)
  | inlineCallableKernel (calleeName : String)
deriving DecidableEq

/-- The primary kernel produced by `generate`. -/
structure LoopyKernel where
  name : String
  instructions : List Instr
deriving DecidableEq

/-- A program wrapping the primary kernel with a registered, then
argument-dimension-matched, then inlined auxiliary kernel. -/
structure LoopyProgram where
  root : LoopyKernel
  callee : MatfreeKernel
  steps : List ProgStep
deriving DecidableEq

/-- The result of `generate`: a plain kernel, or a program when a
matrix-free auxiliary kernel was pending. -/
inductive GenResult
  | kernel (k : LoopyKernel)
  | program (p : LoopyProgram)
deriving DecidableEq

/-- Embedding of the tail of `generate` (loopy.py lines 188-247): lower the
tree to instructions, build the kernel, and if the module-global
`matfree_solve_knl` is set, wrap the kernel in a program, register the
pending kernel as a callable, match its argument dimensions against the
call site, inline it, and reset the global to `None`; otherwise return the
plain kernel. -/
def generate (sc : DType) (tree : ImperoStmt) (kernelName : String)
    (st : GlobalState) : GenResult × GlobalState :=
  let lowered := statement sc tree st
  let knl : LoopyKernel := { name := kernelName, instructions := lowered.1 }
  match lowered.2.matfree_solve_knl with
  | some aux =>
      (.program { root := knl, callee := aux,
                  steps := [.registerCallableKernel aux.name,
                            .matchCallerCalleeArgDim aux.name,
                            .inlineCallableKernel aux.name] },
       { lowered.2 with matfree_solve_knl := none })
  | none => (.kernel knl, lowered.2)

/-! Theorems. -/

/-- Claim C4, counterexample: the value 0.0001 under declared resolution
1e-3 is within resolution of its one-decimal rounding (which is 0.0), yet
`_expression_scalar` emits it verbatim, not as the rounded value — the
claim "a value whose distance to its one-decimal rounding is below the
declared floating-point resolution is emitted as that rounded value" fails
here. -/
theorem claim4_counterexample :
    |(1 / 10000 : ℚ) - npRound1 (1 / 10000)| < 1 / 1000 ∧
    _expression_scalar (PyFloat.val (1 / 10000)) (1 / 1000)
      ≠ PyExpr.lit (npRound1 (1 / 10000)) := by
  have h0 : npRound1 (1 / 10000 : ℚ) = 0 := by
    rw [npRound1, roundHalfEven]; norm_num
  refine ⟨by rw [h0]; rw [sub_zero, abs_of_pos (by norm_num)]; norm_num, ?_⟩
  rw [h0]
  simp only [_expression_scalar]
  rw [if_neg (by rw [h0]; simp)]
  simp only [ne_eq, PyExpr.lit.injEq]
  norm_num

/-- Claim C4 (amended): NaN is emitted as the target NaN literal; a value
whose one-decimal rounding is nonzero and whose distance to that rounding
is below the declared resolution is emitted as the rounded value; every
other value — including every value whose one-decimal rounding is zero —
is emitted verbatim.  In particular 0.29999999 at resolution 1e-3 is
emitted as 0.3 and 0.24 is emitted verbatim. -/
theorem claim4_scalar_constant_amended (v epsilon : ℚ) :
    _expression_scalar PyFloat.nan epsilon = PyExpr.var "NAN" ∧
    (npRound1 v ≠ 0 → |v - npRound1 v| < epsilon →
      _expression_scalar (PyFloat.val v) epsilon = PyExpr.lit (npRound1 v)) ∧
    (npRound1 v = 0 ∨ epsilon ≤ |v - npRound1 v| →
      _expression_scalar (PyFloat.val v) epsilon = PyExpr.lit v) ∧
    _expression_scalar (PyFloat.val (29999999 / 100000000)) (1 / 1000)
      = PyExpr.lit (3 / 10) ∧
    _expression_scalar (PyFloat.val (24 / 100)) (1 / 1000)
      = PyExpr.lit (24 / 100) := by
  refine ⟨rfl, ?_, ?_, ?_, ?_⟩
  · intro h1 h2
    simp only [_expression_scalar]
    rw [if_pos ⟨h1, h2⟩]
  · intro h
    simp only [_expression_scalar]
    rw [if_neg]
    rintro ⟨h1, h2⟩
    rcases h with h | h
    · exact h1 h
    · exact absurd h2 (not_lt.mpr h)
  · have h0 : npRound1 (29999999 / 100000000 : ℚ) = 3 / 10 := by
      rw [npRound1, roundHalfEven]; norm_num
    simp only [_expression_scalar]
    rw [if_pos]
    · rw [h0]
    · rw [h0]
      refine ⟨by norm_num, ?_⟩
      rw [show (29999999 / 100000000 : ℚ) - 3 / 10 = -(1 / 100000000) by norm_num,
        abs_neg, abs_of_pos (by norm_num)]
      norm_num
  · have h0 : npRound1 (24 / 100 : ℚ) = 2 / 10 := by
      rw [npRound1, roundHalfEven]; norm_num
    simp only [_expression_scalar]
    rw [if_neg]
    rintro ⟨_, h2⟩
    rw [h0, show (24 / 100 : ℚ) - 2 / 10 = 1 / 25 by norm_num,
      abs_of_pos (by norm_num)] at h2
    norm_num at h2

/-- Witness for the amended C4: 0.30001 at resolution 1e-3 has nonzero
rounding 0.3 and is within resolution, so it is emitted as the rounded
value. -/
theorem claim4_scalar_constant_amended_witness :
    _expression_scalar (PyFloat.val (30001 / 100000)) (1 / 1000)
      = PyExpr.lit (npRound1 (30001 / 100000)) :=
  (claim4_scalar_constant_amended (30001 / 100000) (1 / 1000)).2.1
    (by rw [npRound1, roundHalfEven]; norm_num)
    (by
      rw [npRound1, roundHalfEven]
      norm_num
      rw [abs_of_pos (by norm_num)]
      norm_num)

/-- Claim C10: a non-NaN scalar constant whose one-decimal rounding is 0.0
is always emitted verbatim — the truthiness test `if r and ...` skips the
snapping whenever the rounding is zero, whatever the resolution. -/
theorem claim10_zero_rounding_verbatim (v epsilon : ℚ)
    (h : npRound1 v = 0) :
    _expression_scalar (PyFloat.val v) epsilon = PyExpr.lit v := by
  simp only [_expression_scalar]
  rw [if_neg]
  rintro ⟨h1, _⟩
  exact h1 h

/-- Witness for C10: 0.00002 at resolution 0.123 rounds to 0.0 at one
decimal and is emitted verbatim. -/
theorem claim10_zero_rounding_verbatim_witness :
    _expression_scalar (PyFloat.val (1 / 50000)) (123 / 1000)
      = PyExpr.lit (1 / 50000) :=
  claim10_zero_rounding_verbatim (1 / 50000) (123 / 1000)
    (by rw [npRound1, roundHalfEven]; norm_num)

/-- Claim C2, counterexample: with the binding `{index 0 ↦ i}` pushed and a
body that raises, the context manager returns with the binding still
present — the pop after the yield never runs on the error path, so the
claim that the bindings are removed on every exit path (including errors)
is false. -/
theorem claim2_counterexample :
    ((active_indices [(0, "i")]
        (fun c => (c, (Except.error "boom" : Except String Unit)))
        ⟨fun _ => none⟩).1.active 0 ≠ none) ∧
    ((active_indices [(0, "i")]
        (fun c => (c, (Except.error "boom" : Except String Unit)))
        ⟨fun _ => none⟩).2 = Except.error "boom") :=
  ⟨fun h => Option.noConfusion h, rfl⟩

/-- Claim C2 (amended): the bindings pushed by `active_indices` are removed
on every normal exit of the body; when the body raises, the error
propagates and the pop is skipped — the context is returned exactly as the
body left it, with the pushed bindings still in place unless the body
itself removed them. -/
theorem claim2_active_indices_amended {α : Type} (mapping : List (ℕ × String))
    (body : LCtx → LCtx × Except String α) (ctx : LCtx) :
    (∀ ctx2 (a : α), body ⟨pushActive mapping ctx.active⟩ = (ctx2, .ok a) →
       active_indices mapping body ctx = (⟨popActive mapping ctx2.active⟩, .ok a) ∧
       ∀ k ∈ mapping.map Prod.fst,
         (active_indices mapping body ctx).1.active k = none) ∧
    (∀ ctx2 (e : String), body ⟨pushActive mapping ctx.active⟩ = (ctx2, .error e) →
       active_indices mapping body ctx = (ctx2, .error e)) := by
  constructor
  · intro ctx2 a h
    have hres : active_indices mapping body ctx
        = (⟨popActive mapping ctx2.active⟩, .ok a) := by
      simp only [active_indices, h]
    refine ⟨hres, ?_⟩
    intro k hk
    rw [hres]
    simp only [popActive]
    rw [if_pos hk]
  · intro ctx2 e h
    simp only [active_indices, h]

/-- Witness for the amended C2: a normally-returning body has its pushed
binding popped. -/
theorem claim2_active_indices_amended_witness :
    active_indices [(0, "i")] (fun c => (c, (Except.ok 42 : Except String ℕ)))
        ⟨fun _ => none⟩
      = (⟨popActive [(0, "i")]
            (pushActive [(0, "i")] (fun _ => none))⟩, Except.ok 42) :=
  ((claim2_active_indices_amended [(0, "i")]
      (fun c => (c, (Except.ok 42 : Except String ℕ))) ⟨fun _ => none⟩).1
    _ 42 rfl).1

/-- Claim C8: the dtype candidate set of a `Conditional` node is exactly the
union of the candidate sets of its two branch children; in particular every
member of the result comes from a branch, so the condition child
contributes nothing. -/
theorem claim8_conditional_dtype (cx : DtypeCtx) (c t e : GemExpr) :
    _assign_dtype cx (.conditional c t e)
      = _assign_dtype cx t ∪ _assign_dtype cx e ∧
    ∀ d : DType, d ∈ _assign_dtype cx (.conditional c t e) →
      d ∈ _assign_dtype cx t ∨ d ∈ _assign_dtype cx e := by
  have heq : _assign_dtype cx (.conditional c t e)
      = _assign_dtype cx t ∪ _assign_dtype cx e := by
    simp [_assign_dtype]
  exact ⟨heq, fun d hd => Finset.mem_union.mp (heq ▸ hd)⟩

/-- Witness for C8: a conditional whose condition is a comparison (dtype
int8) and whose branches are float64/float32 literals has float32 coming
from a branch. -/
theorem claim8_conditional_dtype_witness :
    DType.float32 ∈ _assign_dtype ⟨DType.float64, DType.float64⟩
        (GemExpr.literal 1 DType.float64) ∨
    DType.float32 ∈ _assign_dtype ⟨DType.float64, DType.float64⟩
        (GemExpr.literal 2 DType.float32) :=
  (claim8_conditional_dtype ⟨DType.float64, DType.float64⟩
      (.comparison "<" (.gemvar "u") (.gemvar "v"))
      (.literal 1 DType.float64) (.literal 2 DType.float32)).2
    DType.float32 (by simp [_assign_dtype])

/-- Claim C9: the auxiliary kernel is always named `matfree_cg_kernel`, is
identical for every declared scalar type, declares exactly the arguments
and temporaries A, b, x, output, A_on_x, A_on_p, p, all with float64 dtype,
and fixes the parameter n to the first entry of the Solve node shape. -/
theorem claim9_matfree_kernel_fixed (st1 st2 : DType) (shape : List ℕ) :
    loopy_matfree_solve st1 shape = loopy_matfree_solve st2 shape ∧
    (loopy_matfree_solve st1 shape).name = "matfree_cg_kernel" ∧
    ((loopy_matfree_solve st1 shape).args.map KernelArg.name)
      = ["A", "b", "x", "output", "A_on_x", "A_on_p", "p"] ∧
    ((loopy_matfree_solve st1 shape).args.all
       fun a => a.dtype == DType.float64) = true ∧
    (loopy_matfree_solve st1 shape).fixedN = shape.headD 0 :=
  ⟨rfl, rfl, rfl, rfl, rfl⟩

theorem candidate_injective (s : String) : Function.Injective (candidate s) := by
  intro a b h
  match a, b with
  | 0, 0 => rfl
  | 0, k + 1 => simp [candidate] at h
  | j + 1, 0 => simp [candidate] at h
  | j + 1, k + 1 =>
      simp only [candidate, GenName.mk.injEq, Option.some.injEq] at h
      omega

theorem firstFreeFrom_not_mem (used : Finset GenName) (s : String) :
    ∀ fuel start, (∃ k ≤ fuel, candidate s (start + k) ∉ used) →
      firstFreeFrom used s start fuel ∉ used := by
  intro fuel
  induction fuel with
  | zero =>
      rintro start ⟨k, hk, hfree⟩
      interval_cases k
      simpa [firstFreeFrom] using hfree
  | succ n ih =>
      rintro start ⟨k, hk, hfree⟩
      by_cases hmem : candidate s start ∈ used
      · rw [firstFreeFrom, if_pos hmem]
        apply ih
        cases k with
        | zero => exact absurd hmem (by simpa using hfree)
        | succ j =>
            refine ⟨j, by omega, ?_⟩
            have harith : start + (j + 1) = start + 1 + j := by omega
            rwa [harith] at hfree
      · rw [firstFreeFrom, if_neg hmem]
        exact hmem

theorem freshName_not_mem (used : Finset GenName) (s : String) :
    freshName used s ∉ used := by
  apply firstFreeFrom_not_mem
  by_contra hcon
  push_neg at hcon
  have hsub : (Finset.range (used.card + 2)).image (candidate s) ⊆ used := by
    intro x hx
    obtain ⟨k, hk, rfl⟩ := Finset.mem_image.mp hx
    have hk2 : k ≤ used.card + 1 := by
      have := Finset.mem_range.mp hk
      omega
    simpa using hcon k hk2
  have hcard := Finset.card_le_card hsub
  rw [Finset.card_image_of_injective _ (candidate_injective s),
    Finset.card_range] at hcard
  omega

/-- Claim C3 (spec-modelled node identity): within one naming context,
looking a node up twice through the memoized `_gem_to_pym_var` yields the
identical name, while looking up a node with a different identity — even
one with identical structural data — afterwards yields a different name. -/
theorem claim3_gem_to_pym_var_memo (ctx : NamingCtx) (x y : GemNode)
    (hwf : ctx.WF) (hxy : x.nodeId ≠ y.nodeId) :
    ((_gem_to_pym_var (_gem_to_pym_var ctx x).2 x).1 = (_gem_to_pym_var ctx x).1) ∧
    ((_gem_to_pym_var (_gem_to_pym_var ctx x).2 y).1 ≠ (_gem_to_pym_var ctx x).1) := by
  obtain ⟨hmem, hinj⟩ := hwf
  cases hx : ctx.gem_to_pymbolic x.nodeId with
  | some nmx =>
      have h1 : _gem_to_pym_var ctx x = (nmx, ctx) := by
        simp only [_gem_to_pym_var, hx]
      rw [h1]
      refine ⟨by simp only [_gem_to_pym_var, hx], ?_⟩
      cases hy : ctx.gem_to_pymbolic y.nodeId with
      | some nmy =>
          simp only [_gem_to_pym_var, hy]
          intro hEq
          rw [hEq] at hy
          exact hxy (hinj x.nodeId y.nodeId nmx hx hy)
      | none =>
          simp only [_gem_to_pym_var, hy]
          intro hEq
          have hnot := freshName_not_mem ctx.usedNames y.seedName
          rw [hEq] at hnot
          exact hnot (hmem x.nodeId nmx hx)
  | none =>
      have h1 : _gem_to_pym_var ctx x
          = (freshName ctx.usedNames x.seedName,
             { gem_to_pymbolic := fun i =>
                 if i = x.nodeId then some (freshName ctx.usedNames x.seedName)
                 else ctx.gem_to_pymbolic i,
               usedNames := insert (freshName ctx.usedNames x.seedName)
                 ctx.usedNames }) := by
        simp only [_gem_to_pym_var, hx]
      rw [h1]
      constructor
      · simp [_gem_to_pym_var]
      · have hyid : (y.nodeId = x.nodeId) = False :=
          eq_false (fun h => hxy h.symm)
        cases hy : ctx.gem_to_pymbolic y.nodeId with
        | some nmy =>
            simp only [_gem_to_pym_var, hyid, if_false, hy]
            intro hEq
            have hnot := freshName_not_mem ctx.usedNames x.seedName
            rw [← hEq] at hnot
            exact hnot (hmem y.nodeId nmy hy)
        | none =>
            simp only [_gem_to_pym_var, hyid, if_false, hy]
            intro hEq
            have hnot := freshName_not_mem
              (insert (freshName ctx.usedNames x.seedName) ctx.usedNames)
              y.seedName
            rw [hEq] at hnot
            exact hnot (Finset.mem_insert_self _ _)

/-- Witness for C3: in the empty context, two nodes with identical
structural data (`seedName = "A"`) but distinct identities get the same
name on repeated lookup of the first and different names across the two. -/
theorem claim3_gem_to_pym_var_memo_witness :
    ((_gem_to_pym_var (_gem_to_pym_var ⟨fun _ => none, ∅⟩ ⟨0, "A"⟩).2 ⟨0, "A"⟩).1
       = (_gem_to_pym_var ⟨fun _ => none, ∅⟩ ⟨0, "A"⟩).1) ∧
    ((_gem_to_pym_var (_gem_to_pym_var ⟨fun _ => none, ∅⟩ ⟨0, "A"⟩).2 ⟨1, "A"⟩).1
       ≠ (_gem_to_pym_var ⟨fun _ => none, ∅⟩ ⟨0, "A"⟩).1) :=
  claim3_gem_to_pym_var_memo ⟨fun _ => none, ∅⟩ ⟨0, "A"⟩ ⟨1, "A"⟩
    ⟨fun i nm h => Option.noConfusion h,
     fun i j nm hi _ => Option.noConfusion hi⟩
    (by decide)

/-- Claim C6, counterexample: `cyl_bessel_j` is not a modified Bessel
function, yet under a complex scalar type its lowering raises the
unsupported-operation error — the complex check fires for every
`cyl_bessel_*` name, so "exactly when the function is cyl_bessel_i or
cyl_bessel_k and the scalar type is complex" is false. -/
theorem claim6_counterexample :
    _expression_mathfunction (fun _ => .ok (.lit 0)) "cyl_bessel_j"
        [GemExpr.zero, GemExpr.gemvar "x"] DType.complex128
      = .error "NotImplementedError: Bessel functions for complex numbers: missing implementation" ∧
    ¬("cyl_bessel_j" = "cyl_bessel_i" ∨ "cyl_bessel_j" = "cyl_bessel_k") := by
  have hb : pyStartsWith "cyl_bessel_j" "cyl_bessel_" = true := by decide
  exact ⟨by simp only [_expression_mathfunction, hb, if_true, is_complex], by decide⟩

/-- Claim C6 (amended): lowering a `MathFunction` named `cyl_bessel_*`
raises the unsupported-operation error exactly when the declared scalar
type is complex — for modified and ordinary Bessel functions alike.
Otherwise modified Bessel functions route to boost-qualified names, and
ordinary Bessel j/y route to the order-0/order-1 specialised names when
the order operand is the literal constant 0 or 1 and to a generic order-n
call otherwise. -/
theorem claim6_mathfunction_amended (low : GemExpr → Except String PyExpr)
    (fname : String) (st : DType) (nu arg : GemExpr) (nuLow argLow : PyExpr)
    (hnu : low nu = .ok nuLow) (harg : low arg = .ok argLow) :
    ((∃ msg, _expression_mathfunction low fname [nu, arg] st = .error msg) ↔
       (pyStartsWith fname "cyl_bessel_" = true ∧ is_complex st = true)) ∧
    (is_complex st = false →
      (fname = "cyl_bessel_i" ∨ fname = "cyl_bessel_k") →
      _expression_mathfunction low fname [nu, arg] st
        = .ok (.call (.var ("boost::math::" ++ fname)) [nuLow, argLow])) ∧
    ((fname = "cyl_bessel_j" ∨ fname = "cyl_bessel_y") → is_complex st = false →
      ((isGemZero nu = true →
          _expression_mathfunction low fname [nu, arg] st
            = .ok (.call (.var (pySliceLast fname ++ "0")) [argLow])) ∧
       (isGemZero nu = false → isGemOne nu = true →
          _expression_mathfunction low fname [nu, arg] st
            = .ok (.call (.var (pySliceLast fname ++ "1")) [argLow])) ∧
       (isGemZero nu = false → isGemOne nu = false →
          _expression_mathfunction low fname [nu, arg] st
            = .ok (.call (.var (pySliceLast fname ++ "n")) [nuLow, argLow])))) := by
  have hik : ∀ s : String, (s = "cyl_bessel_i" ∨ s = "cyl_bessel_k") →
      pyStartsWith s "cyl_bessel_" = true := by
    rintro s (rfl | rfl) <;> decide
  have hjy : ∀ s : String, (s = "cyl_bessel_j" ∨ s = "cyl_bessel_y") →
      pyStartsWith s "cyl_bessel_" = true := by
    rintro s (rfl | rfl) <;> decide
  have hjyik : ∀ s : String, (s = "cyl_bessel_j" ∨ s = "cyl_bessel_y") →
      ¬(s = "cyl_bessel_i" ∨ s = "cyl_bessel_k") := by
    rintro s (rfl | rfl) <;> decide
  refine ⟨⟨?_, ?_⟩, ?_, ?_⟩
  · rintro ⟨msg, hmsg⟩
    cases hb : pyStartsWith fname "cyl_bessel_" with
    | true =>
        cases hc : is_complex st with
        | true => exact ⟨rfl, rfl⟩
        | false =>
            exfalso
            simp only [_expression_mathfunction, hb, if_true, hc,
              Bool.false_eq_true, if_false, hnu, harg] at hmsg
            split_ifs at hmsg
    | false =>
        exfalso
        simp only [_expression_mathfunction, hb, Bool.false_eq_true, if_false,
          mapE, hnu, harg] at hmsg
        exact Except.noConfusion hmsg
  · rintro ⟨hb, hc⟩
    exact ⟨"NotImplementedError: Bessel functions for complex numbers: missing implementation",
      by simp only [_expression_mathfunction, hb, if_true, hc]⟩
  · intro hc hik2
    simp only [_expression_mathfunction, hik fname hik2, if_true, hc,
      Bool.false_eq_true, if_false, hnu, harg, if_pos hik2]
  · intro hjy2 hc
    refine ⟨?_, ?_, ?_⟩
    · intro hz
      simp only [_expression_mathfunction, hjy fname hjy2, if_true, hc,
        Bool.false_eq_true, if_false, hnu, harg, if_neg (hjyik fname hjy2),
        hz, if_true]
    · intro hz ho
      simp only [_expression_mathfunction, hjy fname hjy2, if_true, hc,
        Bool.false_eq_true, if_false, hnu, harg, if_neg (hjyik fname hjy2),
        hz, ho, if_false, if_true]
    · intro hz ho
      simp only [_expression_mathfunction, hjy fname hjy2, if_true, hc,
        Bool.false_eq_true, if_false, hnu, harg, if_neg (hjyik fname hjy2),
        hz, ho, if_false]

/-- Witness for the amended C6: `cyl_bessel_y` of order 1 under a real
scalar type lowers to the specialised `y1` call. -/
theorem claim6_mathfunction_amended_witness :
    _expression_mathfunction (fun _ => .ok (.lit 7)) "cyl_bessel_y"
        [GemExpr.literal 1 DType.float64, GemExpr.gemvar "x"] DType.float64
      = .ok (.call (.var (pySliceLast "cyl_bessel_y" ++ "1")) [.lit 7]) :=
  (((claim6_mathfunction_amended (fun _ => .ok (.lit 7)) "cyl_bessel_y"
      DType.float64 (GemExpr.literal 1 DType.float64) (GemExpr.gemvar "x")
      (.lit 7) (.lit 7) rfl rfl).2.2
    (Or.inr rfl) rfl).2.1 rfl rfl)

theorem mapE_ok_of_forall {α β : Type} (g : α → Except String β) (f : α → β) :
    ∀ l : List α, (∀ x ∈ l, g x = .ok (f x)) → mapE g l = .ok (l.map f) := by
  intro l
  induction l with
  | nil => intro _; rfl
  | cons c cs ih =>
      intro h
      have hc := h c (List.mem_cons_self c cs)
      have hcs := ih fun x hx => h x (List.mem_cons_of_mem c hx)
      simp [mapE, hc, hcs]

theorem mapE_error_of_mem {α β : Type} (g : α → Except String β) :
    ∀ l : List α, (∃ x ∈ l, ∃ e, g x = .error e) →
      ∃ e, mapE g l = .error e := by
  intro l
  induction l with
  | nil => rintro ⟨x, hx, _⟩; exact absurd hx (List.not_mem_nil x)
  | cons c cs ih =>
      rintro ⟨x, hx, e, hge⟩
      cases hgc : g c with
      | error e2 => exact ⟨e2, by simp [mapE, hgc]⟩
      | ok y =>
          rcases List.mem_cons.mp hx with rfl | hx2
          · rw [hgc] at hge
            exact Except.noConfusion hge
          · obtain ⟨e3, h3⟩ := ih ⟨x, hx2, e, hge⟩
            exact ⟨e3, by simp [mapE, hgc, h3]⟩

theorem lowerFlexTerm_ok (active : ℕ → Option String) (pr : GemIndexRef × ℤ)
    (hbound : idxBound active pr.1 = true) :
    lowerFlexTerm active pr = .ok (flexTermExpr active pr) := by
  cases hp : pr.1 with
  | fixed id =>
      rw [hp] at hbound
      cases ha : active id with
      | some nm => simp [lowerFlexTerm, flexTermExpr, hp, ha]
      | none => rw [idxBound, ha] at hbound; exact Bool.noConfusion hbound
  | variableIdx i =>
      rw [hp] at hbound
      exact Bool.noConfusion hbound

theorem lowerFlexDim_ok (active : ℕ → Option String)
    (od : ℤ × List (GemIndexRef × ℤ))
    (hfix : (od.2.all fun pr => pr.1.isFixed) = true)
    (hbound : (od.2.all fun pr => idxBound active pr.1) = true) :
    lowerFlexDim active od = .ok (flexDimExpr active od) := by
  rw [lowerFlexDim, if_pos hfix,
    mapE_ok_of_forall (lowerFlexTerm active) (flexTermExpr active) od.2
      (fun pr hpr =>
        lowerFlexTerm_ok active pr (by
          have := List.all_eq_true.mp hbound pr hpr
          simpa using this))]
  rfl

theorem evalPyList_eq_map (env : String → ℚ) :
    ∀ l : List PyExpr, evalPyList env l = l.map (evalPy env) := by
  intro l
  induction l with
  | nil => rfl
  | cons x xs ih => simp [evalPyList, ih]

theorem evalPy_flexTerm (active : ℕ → Option String) (env : String → ℚ)
    (pr : GemIndexRef × ℤ) (hbound : idxBound active pr.1 = true) :
    evalPy env (flexTermExpr active pr) = idxValue active env pr.1 * (pr.2 : ℚ) := by
  cases hp : pr.1 with
  | fixed id =>
      rw [hp] at hbound
      cases ha : active id with
      | some nm =>
          simp [flexTermExpr, hp, ha, evalPy, evalPyList, idxValue]
      | none => rw [idxBound, ha] at hbound; exact Bool.noConfusion hbound
  | variableIdx i =>
      rw [hp] at hbound
      exact Bool.noConfusion hbound

theorem evalPy_flexDim (active : ℕ → Option String) (env : String → ℚ)
    (od : ℤ × List (GemIndexRef × ℤ))
    (hbound : (od.2.all fun pr => idxBound active pr.1) = true) :
    evalPy env (flexDimExpr active od) = affineDimValue active env od := by
  rw [flexDimExpr, affineDimValue]
  simp only [evalPy, evalPyList, evalPyList_eq_map, List.map_map, List.sum_cons]
  congr 1
  refine congrArg List.sum (List.map_congr_left ?_)
  intro pr hpr
  exact evalPy_flexTerm active env pr (List.all_eq_true.mp hbound pr hpr)

/-- Claim C7: when every index of every dimension of a `FlexiblyIndexed`
node is a bound fixed `Index`, the lowering succeeds and produces a
subscript with one affine expression per output dimension, each of which
evaluates (at any assignment of values to the loop variables) to
`offset + Σ(index_value * stride)`; and whenever some dimension contains a
non-fixed index (a `VariableIndex`), the lowering raises. -/
theorem claim7_flexiblyindexed (var : PyExpr)
    (dim2idxs : List (ℤ × List (GemIndexRef × ℤ)))
    (active : ℕ → Option String) (env : String → ℚ) :
    ((dim2idxs.all fun od => od.2.all fun pr => pr.1.isFixed) = true →
     (dim2idxs.all fun od => od.2.all fun pr => idxBound active pr.1) = true →
      _expression_flexiblyindexed var dim2idxs active
        = .ok (.subscript var (dim2idxs.map (flexDimExpr active))) ∧
      ∀ od ∈ dim2idxs,
        evalPy env (flexDimExpr active od) = affineDimValue active env od) ∧
    ((∃ od ∈ dim2idxs, ∃ pr ∈ od.2, pr.1.isFixed = false) →
      ∃ msg, _expression_flexiblyindexed var dim2idxs active = .error msg) := by
  constructor
  · intro hfix hbound
    constructor
    · rw [_expression_flexiblyindexed,
        mapE_ok_of_forall (lowerFlexDim active) (flexDimExpr active) dim2idxs
          (fun od hod =>
            lowerFlexDim_ok active od
              (List.all_eq_true.mp hfix od hod)
              (List.all_eq_true.mp hbound od hod))]
    · intro od hod
      exact evalPy_flexDim active env od (List.all_eq_true.mp hbound od hod)
  · rintro ⟨od, hod, pr, hpr, hbad⟩
    have hdim : ∃ e, lowerFlexDim active od = .error e := by
      rw [lowerFlexDim, if_neg]
      · exact ⟨_, rfl⟩
      · intro hall
        have := List.all_eq_true.mp hall pr hpr
        rw [hbad] at this
        exact Bool.noConfusion this
    obtain ⟨e, he⟩ := mapE_error_of_mem (lowerFlexDim active) dim2idxs
      ⟨od, hod, hdim⟩
    exact ⟨e, by rw [_expression_flexiblyindexed, he]⟩

/-- Witness for C7: the subscript of a two-index dimension with offset 2 and
strides 3 and 5, under bound indices i ↦ 1 and j ↦ 2, evaluates to
2 + 1·3 + 2·5. -/
theorem claim7_flexiblyindexed_witness :
    _expression_flexiblyindexed (PyExpr.var "t0")
        [(2, [(GemIndexRef.fixed 0, 3), (GemIndexRef.fixed 1, 5)])]
        (fun n => if n = 0 then some "i" else if n = 1 then some "j" else none)
      = .ok (.subscript (PyExpr.var "t0")
          ([(2, [(GemIndexRef.fixed 0, 3), (GemIndexRef.fixed 1, 5)])].map
            (flexDimExpr
              (fun n => if n = 0 then some "i" else if n = 1 then some "j" else none)))) ∧
    ∀ od ∈ [((2 : ℤ), [(GemIndexRef.fixed 0, (3 : ℤ)), (GemIndexRef.fixed 1, 5)])],
      evalPy (fun s => if s = "i" then 1 else if s = "j" then 2 else 0)
          (flexDimExpr
            (fun n => if n = 0 then some "i" else if n = 1 then some "j" else none) od)
        = affineDimValue
            (fun n => if n = 0 then some "i" else if n = 1 then some "j" else none)
            (fun s => if s = "i" then 1 else if s = "j" then 2 else 0) od :=
  (claim7_flexiblyindexed (PyExpr.var "t0")
      [(2, [(GemIndexRef.fixed 0, 3), (GemIndexRef.fixed 1, 5)])]
      (fun n => if n = 0 then some "i" else if n = 1 then some "j" else none)
      (fun s => if s = "i" then 1 else if s = "j" then 2 else 0)).1
    (by decide) (by decide)

theorem cgLoop_count_le (A : List (List ℚ)) :
    ∀ fuel s, (cgLoop A fuel s).2 ≤ fuel := by
  intro fuel
  induction fuel with
  | zero => intro s; simp [cgLoop]
  | succ m ih =>
      intro s
      simp only [cgLoop]
      split
      · simp
      · simpa using Nat.succ_le_succ (ih _)

theorem cgLoop_break (A : List (List ℚ)) (s : CGState) (fuel : ℕ)
    (h : dotQ (cgStepResidual A s) (cgStepResidual A s) < 1 / 1000000) :
    (cgLoop A (fuel + 1) s).2 = 1 := by
  simp only [cgStepResidual] at h
  simp only [cgLoop]
  split
  · rfl
  · next hcond => exact absurd h hcond

/-- Claim C5, counterexample: the ISL domain of the iteration index is the
inclusive range `0 <= i_6 <= 3*n`, so for `n = 1` the loop body can run 4
times, not at most 3·1; a run of the embedded kernel semantics on the
1-by-1 system `A = [[0]]`, `b = [1]` (where the residual never shrinks)
indeed executes 4 iterations. -/
theorem claim5_counterexample :
    (loopy_matfree_solve DType.float64 [1]).i6TripCount = 4 ∧
    ¬((loopy_matfree_solve DType.float64 [1]).i6TripCount ≤ 3 * 1) ∧
    (matfree_cg_run [[0]] [1] 1).2 = 4 := by
  refine ⟨rfl, by simp [loopy_matfree_solve, MatfreeKernel.i6TripCount], ?_⟩
  norm_num [matfree_cg_run, MatfreeKernel.i6TripCount, loopy_matfree_solve,
    cgInit, cgLoop, dotQ, matvec]

/-- Claim C5 (amended): the auxiliary kernel initialises the iterate x to
all-ones, its iteration loop performs at most 3n+1 iterations (the domain
bound `0 <= i_6 <= 3*n` is inclusive), and the loop terminates as soon as
the updated residual norm `rkp1_norm` falls below 1e-6 (any iteration whose
updated residual satisfies the bound is the last one executed). -/
theorem claim5_matfree_cg_amended (A : List (List ℚ)) (b : List ℚ) (n : ℕ) :
    (cgInit A b n).x = List.replicate n 1 ∧
    (matfree_cg_run A b n).2 ≤ 3 * n + 1 ∧
    (∀ s fuel, dotQ (cgStepResidual A s) (cgStepResidual A s) < 1 / 1000000 →
       (cgLoop A (fuel + 1) s).2 = 1) := by
  refine ⟨rfl, ?_, fun s fuel h => cgLoop_break A s fuel h⟩
  have hle := cgLoop_count_le A
    (MatfreeKernel.i6TripCount (loopy_matfree_solve .float64 [n])) (cgInit A b n)
  simpa [matfree_cg_run, MatfreeKernel.i6TripCount, loopy_matfree_solve] using hle

/-- Witness for the amended C5: on the system `A = [[1]]`, `b = [2]` the
very first updated residual is 0, so the loop executes exactly one
iteration. -/
theorem claim5_matfree_cg_amended_witness :
    (cgLoop [[1]] (3 + 1) (cgInit [[1]] [2] 1)).2 = 1 :=
  (claim5_matfree_cg_amended [[1]] [2] 1).2.2 (cgInit [[1]] [2] 1) 3
    (by norm_num [cgInit, cgStepResidual, dotQ, matvec])

mutual

theorem statement_fst (sc : DType) (t : ImperoStmt) (st : GlobalState) :
    (statement sc t st).1 = expectedInstrs sc t := by
  cases t with
  | block cs => simpa only [statement, expectedInstrs] using statementList_fst sc cs st
  | forLoop body => simpa only [statement, expectedInstrs] using statement_fst sc body st
  | evaluateSolve matfree shape => cases matfree <;> simp [statement, expectedInstrs]
  | evaluateOther => rfl

theorem statementList_fst (sc : DType) (ts : List ImperoStmt) (st : GlobalState) :
    (statementList sc ts st).1 = expectedInstrsList sc ts := by
  cases ts with
  | nil => rfl
  | cons c cs =>
      simp only [statementList, expectedInstrsList]
      rw [statement_fst sc c st, statementList_fst sc cs (statement sc c st).2]

end

mutual

theorem statement_registrations (sc : DType) (t : ImperoStmt) (st : GlobalState) :
    (statement sc t st).2.registrations = st.registrations + matfreeCount t := by
  cases t with
  | block cs =>
      simpa only [statement, matfreeCount] using statementList_registrations sc cs st
  | forLoop body =>
      simpa only [statement, matfreeCount] using statement_registrations sc body st
  | evaluateSolve matfree shape => cases matfree <;> simp [statement, matfreeCount]
  | evaluateOther => simp [statement, matfreeCount]

theorem statementList_registrations (sc : DType) (ts : List ImperoStmt)
    (st : GlobalState) :
    (statementList sc ts st).2.registrations
      = st.registrations + matfreeCountList ts := by
  cases ts with
  | nil => simp [statementList, matfreeCountList]
  | cons c cs =>
      simp only [statementList, matfreeCountList]
      rw [statementList_registrations sc cs (statement sc c st).2,
        statement_registrations sc c st]
      omega

end

mutual

theorem statement_pending_zero (sc : DType) (t : ImperoStmt) (st : GlobalState)
    (h : matfreeCount t = 0) :
    (statement sc t st).2.matfree_solve_knl = st.matfree_solve_knl := by
  cases t with
  | block cs =>
      simp only [matfreeCount] at h
      simpa only [statement] using statementList_pending_zero sc cs st h
  | forLoop body =>
      simp only [matfreeCount] at h
      simpa only [statement] using statement_pending_zero sc body st h
  | evaluateSolve matfree shape =>
      cases matfree with
      | true => simp [matfreeCount] at h
      | false => simp [statement]
  | evaluateOther => rfl

theorem statementList_pending_zero (sc : DType) (ts : List ImperoStmt)
    (st : GlobalState) (h : matfreeCountList ts = 0) :
    (statementList sc ts st).2.matfree_solve_knl = st.matfree_solve_knl := by
  cases ts with
  | nil => rfl
  | cons c cs =>
      simp only [matfreeCountList] at h
      simp only [statementList]
      rw [statementList_pending_zero sc cs (statement sc c st).2 (by omega),
        statement_pending_zero sc c st (by omega)]

end

mutual

theorem statement_pending_pos (sc : DType) (t : ImperoStmt) (st : GlobalState)
    (h : 1 ≤ matfreeCount t) :
    ∃ shape, (statement sc t st).2.matfree_solve_knl
      = some (loopy_matfree_solve sc shape) := by
  cases t with
  | block cs =>
      simp only [matfreeCount] at h
      simpa only [statement] using statementList_pending_pos sc cs st h
  | forLoop body =>
      simp only [matfreeCount] at h
      simpa only [statement] using statement_pending_pos sc body st h
  | evaluateSolve matfree shape =>
      cases matfree with
      | true => exact ⟨shape, by simp [statement]⟩
      | false => simp [matfreeCount] at h
  | evaluateOther => simp [matfreeCount] at h

theorem statementList_pending_pos (sc : DType) (ts : List ImperoStmt)
    (st : GlobalState) (h : 1 ≤ matfreeCountList ts) :
    ∃ shape, (statementList sc ts st).2.matfree_solve_knl
      = some (loopy_matfree_solve sc shape) := by
  cases ts with
  | nil => simp [matfreeCountList] at h
  | cons c cs =>
      simp only [matfreeCountList] at h
      simp only [statementList]
      by_cases hcs : 1 ≤ matfreeCountList cs
      · exact statementList_pending_pos sc cs (statement sc c st).2 hcs
      · have hcs0 : matfreeCountList cs = 0 := by omega
        obtain ⟨shape, hsh⟩ := statement_pending_pos sc c st (by omega)
        exact ⟨shape,
          by rw [statementList_pending_zero sc cs (statement sc c st).2 hcs0, hsh]⟩

end

mutual

theorem expectedInstrs_no_solve (sc : DType) (t : ImperoStmt)
    (h : plainSolveCount t = 0) :
    ∀ m, Instr.callInstr "solve" m ∉ expectedInstrs sc t := by
  cases t with
  | block cs =>
      simp only [plainSolveCount] at h
      simpa only [expectedInstrs] using expectedInstrsList_no_solve sc cs h
  | forLoop body =>
      simp only [plainSolveCount] at h
      simpa only [expectedInstrs] using expectedInstrs_no_solve sc body h
  | evaluateSolve matfree shape =>
      cases matfree with
      | true =>
          intro m hm
          simp only [expectedInstrs, if_true, List.mem_singleton] at hm
          injection hm with h1 h2
          rw [show (loopy_matfree_solve sc shape).name = "matfree_cg_kernel" from rfl] at h1
          exact absurd h1 (by decide)
      | false => simp [plainSolveCount] at h
  | evaluateOther =>
      intro m hm
      simp only [expectedInstrs, List.mem_singleton] at hm
      exact Instr.noConfusion hm

theorem expectedInstrsList_no_solve (sc : DType) (ts : List ImperoStmt)
    (h : plainSolveCountList ts = 0) :
    ∀ m, Instr.callInstr "solve" m ∉ expectedInstrsList sc ts := by
  cases ts with
  | nil => intro m hm; exact absurd hm (List.not_mem_nil _)
  | cons c cs =>
      simp only [plainSolveCountList] at h
      intro m hm
      rcases List.mem_append.mp hm with hm1 | hm2
      · exact expectedInstrs_no_solve sc c (by omega) m hm1
      · exact expectedInstrsList_no_solve sc cs (by omega) m hm2

end

/-- Claim C1: lowering a matrix-free `Solve` node registers the synthesized
auxiliary kernel as pending and emits a call instruction targeting that
kernel name (not the generic `solve` symbol); lowering a tree with exactly
one matrix-free solve performs exactly one registration; `generate` then
returns a program in which the pending kernel has been registered as a
callable, argument-dimension-matched and inlined, and clears the pending
registration, so that a subsequent compilation containing no matrix-free
solve returns a plain kernel; and when the tree contains no direct solve,
no emitted instruction targets the generic `solve` symbol. -/
theorem claim1_matfree_solve_pipeline (sc : DType) (tree : ImperoStmt)
    (kernelName : String) (st0 : GlobalState)
    (hcount : matfreeCount tree = 1) (hpending : st0.matfree_solve_knl = none) :
    (∀ (shape : List ℕ) (st : GlobalState),
       statement sc (.evaluateSolve true shape) st
         = ([.callInstr (loopy_matfree_solve sc shape).name 2],
            { matfree_solve_knl := some (loopy_matfree_solve sc shape),
              registrations := st.registrations + 1 }) ∧
       (loopy_matfree_solve sc shape).name ≠ "solve") ∧
    (statement sc tree st0).2.registrations = st0.registrations + 1 ∧
    (∃ aux : MatfreeKernel, aux.name = "matfree_cg_kernel" ∧
       (generate sc tree kernelName st0).1
         = .program { root := ⟨kernelName, expectedInstrs sc tree⟩, callee := aux,
                      steps := [.registerCallableKernel aux.name,
                                .matchCallerCalleeArgDim aux.name,
                                .inlineCallableKernel aux.name] }) ∧
    (generate sc tree kernelName st0).2.matfree_solve_knl = none ∧
    (plainSolveCount tree = 0 →
       ∀ m, Instr.callInstr "solve" m ∉ expectedInstrs sc tree) ∧
    (∀ (tree2 : ImperoStmt) (kernelName2 : String), matfreeCount tree2 = 0 →
       (generate sc tree2 kernelName2 (generate sc tree kernelName st0).2).1
         = .kernel ⟨kernelName2, expectedInstrs sc tree2⟩) := by
  obtain ⟨shape, hsh⟩ := statement_pending_pos sc tree st0 (by omega)
  have hclear : (generate sc tree kernelName st0).2.matfree_solve_knl = none := by
    simp [generate, hsh]
  refine ⟨?_, ?_, ?_, hclear, ?_, ?_⟩
  · intro shape2 st
    refine ⟨rfl, ?_⟩
    intro hEq
    rw [show (loopy_matfree_solve sc shape2).name = "matfree_cg_kernel" from rfl] at hEq
    exact absurd hEq (by decide)
  · rw [statement_registrations, hcount]
  · refine ⟨loopy_matfree_solve sc shape, rfl, ?_⟩
    simp only [generate, hsh]
    rw [statement_fst]
  · exact fun h m => expectedInstrs_no_solve sc tree h m
  · intro tree2 kernelName2 h2
    set st1 := (generate sc tree kernelName st0).2 with hst1def
    have hpend2 := statement_pending_zero sc tree2 st1 h2
    rw [hclear] at hpend2
    simp only [generate, hpend2]
    rw [statement_fst]

/-- Witness for C1: a block with one plain statement and one matrix-free
solve of shape (4,) registers exactly one auxiliary kernel and `generate`
leaves no pending registration. -/
theorem claim1_matfree_solve_pipeline_witness :
    (statement DType.float64
        (.block [.evaluateOther, .evaluateSolve true [4]]) ⟨none, 0⟩).2.registrations
      = (⟨none, 0⟩ : GlobalState).registrations + 1 ∧
    (generate DType.float64 (.block [.evaluateOther, .evaluateSolve true [4]])
        "loopy_kernel_0" ⟨none, 0⟩).2.matfree_solve_knl = none :=
  ⟨(claim1_matfree_solve_pipeline DType.float64
      (.block [.evaluateOther, .evaluateSolve true [4]]) "loopy_kernel_0"
      ⟨none, 0⟩ rfl rfl).2.1,
   (claim1_matfree_solve_pipeline DType.float64
      (.block [.evaluateOther, .evaluateSolve true [4]]) "loopy_kernel_0"
      ⟨none, 0⟩ rfl rfl).2.2.2.1⟩

end TSFC
